import Mathlib

/-!
Verification of the pipeless pipeline engine (`pipeless.py`).

The embedding models Python values by the inductive `Value`; a transform is a
function from a value to either a result value or a raised exception
(`Except Exn Value`).  The executor `run_pipeline` follows the source code:
`safeSource` embeds the inner generator `safe_source`, `runChain` embeds the
item/function double loop of `run_pipeline` together with its recursive
fan-out call, and `get_functions_to_run` embeds the resolver.  Executor
results carry, besides the yielded items and an optional escaping exception,
the list of transforms that were actually applied, so that statements about
which functions get invoked can be proved.
-/

namespace Pipeless

/-- Exceptions are identified by a numeric code. -/
abbrev Exn := Nat

/-- Python values relevant to the engine: `None`, integers, strings
(element-iterable), and lists (element-iterable). -/
inductive Value where
  | vnone : Value
  | vint : Int → Value
  | vstr : List Char → Value
  | vlist : List Value → Value

/-- The Python identity test `item is None`. -/
def Value.isNone : Value → Bool
  | .vnone => true
  | _ => false

/-- `isinstance(item, Iterable)`: strings and lists are iterable, `None` and
integers are not. -/
def Value.isIterable : Value → Bool
  | .vstr _ => true
  | .vlist _ => true
  | _ => false

/-- Iterating a value: a string yields its characters as one-character
strings (as Python iteration over `str` does), a list yields its elements. -/
def Value.elements : Value → List Value
  | .vstr s => s.map (fun c => Value.vstr [c])
  | .vlist xs => xs
  | _ => []

/-- A pipeline function: takes one item, returns a value or raises. -/
abbrev Transform := Value → Except Exn Value

/-- An error policy `(item, exception) -> substitute or raise`
(`error_func` in the source). -/
abbrev ErrorFunc := Value → Exn → Except Exn Value

/-- `default_error_func` prints a diagnostic and re-raises the exception;
only the re-raise is observable here. -/
def default_error_func : ErrorFunc := fun _ e => Except.error e

/-- Result of one executor invocation: the transforms applied (in order),
the yielded items (in order), and the exception escaping from the generator,
if any. -/
abbrev Res := List Transform × List Value × Option Exn

/-- One step of the inner `for fn_num, function in enumerate(...)` loop of
`run_pipeline`, processing the current item `x` with the first remaining
function `f`:  apply `f`; on exception consult the error policy; then
dispatch on the result (`None` drops the item, an iterable fans out through
`recur`, which stands for the run over the remaining chain, and a scalar
continues through the remaining chain).  `acc` is the result of processing
the later source items. -/
def chainStep (errf : ErrorFunc) (f : Transform) (recur : List Value → Res)
    (x : Value) (acc : Res) : Res :=
  match (match f x with
         | Except.ok v => Except.ok v
         | Except.error e => errf x e) with
  | Except.error e => ([f], [], some e)
  | Except.ok v =>
    if v.isNone then
      (f :: acc.1, acc.2.1, acc.2.2)
    else if v.isIterable then
      match recur v.elements with
      | (tr, ys, some e) => (f :: tr, ys, some e)
      | (tr, ys, none) => (f :: (tr ++ acc.1), ys ++ acc.2.1, acc.2.2)
    else
      match recur [v] with
      | (tr, ys, some e) => (f :: tr, ys, some e)
      | (tr, ys, none) => (f :: (tr ++ acc.1), ys ++ acc.2.1, acc.2.2)

/-- The double loop of `run_pipeline` over an already-produced list of source
items: each item walks the function chain; a fan-out recursively runs the
remaining chain (`functions_to_run[fn_num+1:]`) over the produced elements.
With no functions left every item is yielded as-is. -/
def runChain (errf : ErrorFunc) : List Transform → List Value → Res
  | [] => fun items => ([], items, none)
  | f :: rest => fun items =>
      items.foldr (chainStep errf f (runChain errf rest)) ([], [], none)

/-- The generator `safe_source`: yield the pulled items, remembering the last
one (initially `None`); if a pull raises, call the error policy on the last
item and the exception and end the generator (`raise StopIteration`),
letting an exception raised by the policy itself escape. -/
def safeSource (errf : ErrorFunc) :
    Value → List (Except Exn Value) → List Value × Option Exn
  | _, [] => ([], none)
  | last, p :: ps =>
    match p with
    | Except.ok v =>
      match safeSource errf v ps with
      | (ys, ex) => (v :: ys, ex)
    | Except.error e =>
      match errf last e with
      | Except.ok _ => ([], none)
      | Except.error e2 => ([], some e2)

/-- A source that never raises: every pull produces an item. -/
def toPulls (xs : List Value) : List (Except Exn Value) := xs.map Except.ok

/-- `run_pipeline` with an explicit `functions_to_run` list: iterate
`safe_source(item_generator, error_func)` and process each item through the
chain; an exception escaping while processing ends the output there. -/
def run_pipeline (errf : ErrorFunc) (pulls : List (Except Exn Value))
    (functions_to_run : List Transform) : Res :=
  match safeSource errf Value.vnone pulls with
  | (items, srcEx) =>
    match runChain errf functions_to_run items with
    | (tr, ys, some e) => (tr, ys, some e)
    | (tr, ys, none) => (tr, ys, srcEx)

/-- What a registered builder produces when called: a callable (a transform)
or some non-callable value, identified by a code. -/
inductive BuildResult where
  | callable : Transform → BuildResult
  | notCallable : Nat → BuildResult

/-- A zero-argument pipeline-function builder. -/
abbrev Builder := Unit → BuildResult

/-- One registry record `(group, name, function_builder)`. -/
structure Entry where
  group : String
  name : String
  builder : Builder

/-- `add_func`: append a `(group, name, builder)` record to the functions
list, keeping insertion order. -/
def add_func (functions_list : List Entry) (name : String) (func : Builder)
    (group : String) : List Entry :=
  functions_list ++ [⟨group, name, func⟩]

/-- `function_annotator` applied directly to a builder (the `callable(group)`
branch): register under the empty group. -/
def annotate_bare (functions_list : List Entry) (name : String)
    (func : Builder) : List Entry :=
  add_func functions_list name func ""

/-- `function_annotator(group)` followed by the returned decorator:
register under the given group. -/
def annotate_group (functions_list : List Entry) (group : String)
    (name : String) (func : Builder) : List Entry :=
  add_func functions_list name func group

/-- A sequence of registrations `(group, name, builder)` performed in order. -/
def register_many (functions_list : List Entry) :
    List (String × String × Builder) → List Entry
  | [] => functions_list
  | (g, n, b) :: rest => register_many (add_func functions_list n b g) rest

/-- The comprehension `[check_function(build_function(fn)) for fn in ...]`:
invoke the builders left to right, recording each invocation; a non-callable
result raises the assertion (`ConfigurationError`), stopping the build.
Returns the invoked builders and either the built transforms or the error. -/
def buildAll : List Builder → List Builder × Except Unit (List Transform)
  | [] => ([], Except.ok [])
  | b :: bs =>
    match b () with
    | BuildResult.callable f =>
      match buildAll bs with
      | (tr, Except.ok fs) => (b :: tr, Except.ok (f :: fs))
      | (tr, Except.error e) => (b :: tr, Except.error e)
    | BuildResult.notCallable _ => ([b], Except.error ())

/-- `get_functions_to_run`: keep the registered entries whose group is not
skipped, in registration order, and build each one. -/
def get_functions_to_run (registry : List Entry) (skip : List String) :
    List Builder × Except Unit (List Transform) :=
  buildAll ((registry.filter (fun en => !(skip.contains en.group))).map Entry.builder)

/-- `run_pipeline` with `functions_to_run=None`: resolve from the registry
first; a failed resolution escapes before anything is pulled. -/
def run_with_registry (errf : ErrorFunc) (registry : List Entry)
    (skip : List String) (pulls : List (Except Exn Value)) : Except Unit Res :=
  match (get_functions_to_run registry skip).2 with
  | Except.error e => Except.error e
  | Except.ok fns => Except.ok (run_pipeline errf pulls fns)

/-- Example transform `lambda item: item + 1` (identity elsewhere, never
raises). -/
def incT : Transform := fun v =>
  Except.ok (match v with | .vint n => .vint (n + 1) | w => w)

/-- Example transform `lambda item: [item, item]` (fan-out, never raises). -/
def dupT : Transform := fun v => Except.ok (.vlist [v, v])

/-- Example transform that raises on every item. -/
def boomT : Transform := fun _ => Except.error 7

/-- Example transform returning the text `"ab"` for every item. -/
def toStrAB : Transform := fun _ => Except.ok (.vstr ['a', 'b'])

/-- Example error policy returning the substitute `99` for every failure. -/
def errf99 : ErrorFunc := fun _ _ => Except.ok (.vint 99)

/-- Example transform returning `None` for every item (a `Drop`). -/
def dropT : Transform := fun _ => Except.ok Value.vnone

/-- Example error policy returning `None` for every failure. -/
def errfNone : ErrorFunc := fun _ _ => Except.ok Value.vnone

/-- Example builder producing `incT`. -/
def bUp : Builder := fun _ => BuildResult.callable incT

/-- Example builder producing `dupT`. -/
def bDup : Builder := fun _ => BuildResult.callable dupT

/-- Example builder whose result is not callable. -/
def bBad : Builder := fun _ => BuildResult.notCallable 0

/-- Example registry with two groups. -/
def demoRegistry : List Entry :=
  [⟨"", "up_one", bUp⟩, ⟨"twos", "twofer", bDup⟩]

/-- Example registry whose second builder is broken. -/
def demoRegistryBad : List Entry :=
  [⟨"", "up_one", bUp⟩, ⟨"g", "bad", bBad⟩]

/-- Sequential composition of two executor results: if the first escaped with
an exception the second never ran; otherwise traces and yields concatenate
and the second's exception stands. -/
def combine (r1 r2 : Res) : Res :=
  match r1 with
  | (tr, ys, some e) => (tr, ys, some e)
  | (tr, ys, none) => (tr ++ r2.1, ys ++ r2.2.1, r2.2.2)

/-- Specification-side per-item semantics, following §4.3 of the design text:
apply the transforms in order; an absent (`None`) result drops the item, a
sequence result applies the remaining chain to each element and concatenates
depth-first, a scalar continues, and an item surviving the whole chain is
yielded.  (The error branch is irrelevant for never-raising chains.) -/
def specApply : List Transform → Value → List Value
  | [] => fun x => [x]
  | f :: rest => fun x =>
    match f x with
    | Except.error _ => []
    | Except.ok v =>
      if v.isNone then []
      else if v.isIterable then v.elements.flatMap (specApply rest)
      else specApply rest v

lemma flatMap_singleton_id (l : List Value) : l.flatMap (fun x => [x]) = l := by
  induction l with
  | nil => rfl
  | cons x xs ih => simp [ih]

lemma combine_nil_left (r : Res) : combine ([], [], none) r = r := by
  rcases r with ⟨tr, ys, ex⟩
  simp [combine]

lemma chainStep_combine (errf : ErrorFunc) (f : Transform)
    (recur : List Value → Res) (x : Value) (r acc : Res) :
    chainStep errf f recur x (combine r acc) = combine (chainStep errf f recur x r) acc := by
  rcases r with ⟨tr1, ys1, ex1⟩
  rcases acc with ⟨tr2, ys2, ex2⟩
  unfold chainStep
  cases hfx : (match f x with
               | Except.ok v => Except.ok v
               | Except.error e => errf x e) with
  | error e => simp [combine]
  | ok v =>
    cases hn : v.isNone with
    | true =>
      cases ex1 <;> simp [hn, combine]
    | false =>
      cases hit : v.isIterable with
      | true =>
        rcases hrec : recur v.elements with ⟨tr, ys, ex⟩
        cases ex <;> cases ex1 <;> simp [hn, hit, hrec, combine, List.append_assoc]
      | false =>
        rcases hrec : recur [v] with ⟨tr, ys, ex⟩
        cases ex <;> cases ex1 <;> simp [hn, hit, hrec, combine, List.append_assoc]

lemma foldr_chainStep_eq (errf : ErrorFunc) (f : Transform)
    (recur : List Value → Res) (l : List Value) (acc : Res) :
    l.foldr (chainStep errf f recur) acc
      = combine (l.foldr (chainStep errf f recur) ([], [], none)) acc := by
  induction l with
  | nil => simp [combine_nil_left]
  | cons x xs ih => rw [List.foldr_cons, ih, chainStep_combine, List.foldr_cons]

lemma runChain_append (errf : ErrorFunc) (fns : List Transform)
    (as bs : List Value) :
    runChain errf fns (as ++ bs) = combine (runChain errf fns as) (runChain errf fns bs) := by
  cases fns with
  | nil => rfl
  | cons f rest =>
    show List.foldr (chainStep errf f (runChain errf rest)) ([], [], none) (as ++ bs)
        = combine (List.foldr (chainStep errf f (runChain errf rest)) ([], [], none) as)
            (List.foldr (chainStep errf f (runChain errf rest)) ([], [], none) bs)
    rw [List.foldr_append, foldr_chainStep_eq]

lemma runChain_cons_split (errf : ErrorFunc) (fns : List Transform)
    (x : Value) (xs : List Value) :
    runChain errf fns (x :: xs) = combine (runChain errf fns [x]) (runChain errf fns xs) := by
  have h := runChain_append errf fns [x] xs
  simpa using h

lemma runChain_flatMap (errf : ErrorFunc) (fns : List Transform)
    (items : List Value) (h : (runChain errf fns items).2.2 = none) :
    (runChain errf fns items).2.1 = items.flatMap (fun x => (runChain errf fns [x]).2.1) := by
  induction items with
  | nil => cases fns <;> simp [runChain]
  | cons x xs ih =>
    rcases h1 : runChain errf fns [x] with ⟨tr1, ys1, ex1⟩
    rcases h2 : runChain errf fns xs with ⟨tr2, ys2, ex2⟩
    rw [runChain_cons_split, h1, h2] at h ⊢
    cases ex1 with
    | some e => simp [combine] at h
    | none =>
      have hex2 : ex2 = none := by simpa [combine] using h
      subst hex2
      have hys2 : ys2 = xs.flatMap (fun y => (runChain errf fns [y]).2.1) := by
        have hx := ih (by rw [h2])
        rw [h2] at hx
        exact hx
      simp [combine, h1, hys2]

lemma chainStep_trace_cases (errf : ErrorFunc) (f : Transform)
    (recur : List Value → Res) (x : Value) (acc : Res) (g : Transform)
    (hg : g ∈ (chainStep errf f recur x acc).1) :
    g = f ∨ (∃ l, g ∈ (recur l).1) ∨ g ∈ acc.1 := by
  unfold chainStep at hg
  cases hfx : (match f x with
               | Except.ok v => Except.ok v
               | Except.error e => errf x e) with
  | error e =>
    rw [hfx] at hg
    simp at hg
    exact Or.inl hg
  | ok v =>
    rw [hfx] at hg
    cases hn : v.isNone with
    | true =>
      simp [hn] at hg
      rcases hg with rfl | hga
      · exact Or.inl rfl
      · exact Or.inr (Or.inr hga)
    | false =>
      cases hit : v.isIterable with
      | true =>
        simp only [hn, hit, Bool.false_eq_true, if_false, if_true] at hg
        rcases hrec : recur v.elements with ⟨tr, ys, ex⟩
        rw [hrec] at hg
        cases ex with
        | some e =>
          simp at hg
          rcases hg with rfl | hga
          · exact Or.inl rfl
          · exact Or.inr (Or.inl ⟨v.elements, by rw [hrec]; exact hga⟩)
        | none =>
          simp at hg
          rcases hg with rfl | hga | hga
          · exact Or.inl rfl
          · exact Or.inr (Or.inl ⟨v.elements, by rw [hrec]; exact hga⟩)
          · exact Or.inr (Or.inr hga)
      | false =>
        simp only [hn, hit, Bool.false_eq_true, if_false] at hg
        rcases hrec : recur [v] with ⟨tr, ys, ex⟩
        rw [hrec] at hg
        cases ex with
        | some e =>
          simp at hg
          rcases hg with rfl | hga
          · exact Or.inl rfl
          · exact Or.inr (Or.inl ⟨[v], by rw [hrec]; exact hga⟩)
        | none =>
          simp at hg
          rcases hg with rfl | hga | hga
          · exact Or.inl rfl
          · exact Or.inr (Or.inl ⟨[v], by rw [hrec]; exact hga⟩)
          · exact Or.inr (Or.inr hga)

lemma runChain_trace_mem (errf : ErrorFunc) :
    ∀ (fns : List Transform) (items : List Value) (g : Transform),
      g ∈ (runChain errf fns items).1 → g ∈ fns := by
  intro fns
  induction fns with
  | nil => intro items g hg; exact absurd hg (List.not_mem_nil g)
  | cons f rest ihf =>
    intro items
    induction items with
    | nil => intro g hg; exact absurd hg (List.not_mem_nil g)
    | cons x xs ihx =>
      intro g hg
      have hstep : runChain errf (f :: rest) (x :: xs)
          = chainStep errf f (runChain errf rest) x (runChain errf (f :: rest) xs) := rfl
      rw [hstep] at hg
      rcases chainStep_trace_cases errf f (runChain errf rest) x
          (runChain errf (f :: rest) xs) g hg with rfl | ⟨l, hl⟩ | hacc
      · exact List.mem_cons_self _ _
      · exact List.mem_cons_of_mem f (ihf l g hl)
      · exact ihx g hacc

lemma safeSource_ok (errf : ErrorFunc) :
    ∀ (vs : List Value) (last : Value),
      safeSource errf last (vs.map Except.ok) = (vs, none) := by
  intro vs
  induction vs with
  | nil => intro last; rfl
  | cons v vs ih =>
    intro last
    have h1 : safeSource errf last (Except.ok v :: vs.map Except.ok)
        = (v :: (safeSource errf v (vs.map Except.ok)).1,
           (safeSource errf v (vs.map Except.ok)).2) := rfl
    show safeSource errf last (Except.ok v :: vs.map Except.ok) = (v :: vs, none)
    rw [h1, ih v]

lemma safeSource_error (errf : ErrorFunc) (e : Exn) :
    ∀ (vs : List Value) (last : Value) (qs : List (Except Exn Value)),
      safeSource errf last (vs.map Except.ok ++ Except.error e :: qs)
        = (vs, match errf (vs.getLastD last) e with
               | Except.ok _ => none
               | Except.error e2 => some e2) := by
  intro vs
  induction vs with
  | nil =>
    intro last qs
    have h0 : safeSource errf last (Except.error e :: qs)
        = (match errf last e with
           | Except.ok _ => (([] : List Value), (none : Option Exn))
           | Except.error e2 => ([], some e2)) := rfl
    show safeSource errf last (Except.error e :: qs) = _
    rw [h0, List.getLastD_nil]
    cases herr : errf last e <;> rfl
  | cons v vs ih =>
    intro last qs
    have h1 : safeSource errf last (Except.ok v :: (vs.map Except.ok ++ Except.error e :: qs))
        = (v :: (safeSource errf v (vs.map Except.ok ++ Except.error e :: qs)).1,
           (safeSource errf v (vs.map Except.ok ++ Except.error e :: qs)).2) := rfl
    show safeSource errf last (Except.ok v :: (vs.map Except.ok ++ Except.error e :: qs)) = _
    rw [h1, ih v qs, List.getLastD_cons]

lemma run_pipeline_pure (errf : ErrorFunc) (S : List Value) (fns : List Transform) :
    run_pipeline errf (toPulls S) fns = runChain errf fns S := by
  unfold run_pipeline toPulls
  rw [safeSource_ok]
  show (match runChain errf fns S with
        | (tr, ys, some e) => (tr, ys, some e)
        | (tr, ys, none) => (tr, ys, (none : Option Exn))) = runChain errf fns S
  generalize runChain errf fns S = r
  rcases r with ⟨tr, ys, ex⟩
  cases ex <;> rfl

lemma buildAll_trace_mem :
    ∀ (bs : List Builder) (b : Builder), b ∈ (buildAll bs).1 → b ∈ bs := by
  intro bs
  induction bs with
  | nil => intro b hb; exact absurd hb (List.not_mem_nil b)
  | cons hd tl ih =>
    intro b hb
    unfold buildAll at hb
    cases hhd : hd () with
    | callable f =>
      rw [hhd] at hb
      rcases hta : buildAll tl with ⟨tr, r⟩
      rw [hta] at hb
      cases r with
      | ok fs =>
        simp at hb
        rcases hb with rfl | hb
        · exact List.mem_cons_self b tl
        · exact List.mem_cons_of_mem hd (ih b (by rw [hta]; exact hb))
      | error u =>
        simp at hb
        rcases hb with rfl | hb
        · exact List.mem_cons_self b tl
        · exact List.mem_cons_of_mem hd (ih b (by rw [hta]; exact hb))
    | notCallable k =>
      rw [hhd] at hb
      simp at hb
      subst hb
      exact List.mem_cons_self b tl

lemma buildAll_ok (bs : List Builder)
    (h : ∀ b ∈ bs, ∃ f, b () = BuildResult.callable f) :
    (buildAll bs).1 = bs ∧
      ∃ fs, (buildAll bs).2 = Except.ok fs ∧
        List.Forall₂ (fun b f => b () = BuildResult.callable f) bs fs := by
  induction bs with
  | nil => exact ⟨rfl, [], rfl, List.Forall₂.nil⟩
  | cons hd tl ih =>
    obtain ⟨f, hf⟩ := h hd (List.mem_cons_self hd tl)
    obtain ⟨htr, fs, hok, hfa⟩ := ih (fun b hb => h b (List.mem_cons_of_mem hd hb))
    unfold buildAll
    rw [hf]
    rcases hta : buildAll tl with ⟨tr, r⟩
    rw [hta] at htr hok
    simp only at htr hok
    subst htr
    subst hok
    exact ⟨rfl, f :: fs, rfl, List.Forall₂.cons hf hfa⟩

lemma buildAll_error (bs : List Builder) (b : Builder) (k : Nat)
    (hb : b ∈ bs) (hk : b () = BuildResult.notCallable k) :
    (buildAll bs).2 = Except.error () := by
  induction bs with
  | nil => exact absurd hb (List.not_mem_nil b)
  | cons hd tl ih =>
    unfold buildAll
    cases hhd : hd () with
    | notCallable j => rfl
    | callable f =>
      rcases List.mem_cons.mp hb with rfl | hmem
      · rw [hhd] at hk; cases hk
      · have herr := ih hmem
        rcases hta : buildAll tl with ⟨tr, r⟩
        rw [hta] at herr
        simp only at herr
        subst herr
        rfl

lemma buildAll_ok_mem :
    ∀ (bs : List Builder) (fs : List Transform),
      (buildAll bs).2 = Except.ok fs →
      ∀ f ∈ fs, ∃ b ∈ bs, b () = BuildResult.callable f := by
  intro bs
  induction bs with
  | nil =>
    intro fs h f hf
    have : fs = [] := by
      have h' : Except.ok ([] : List Transform) = Except.ok fs := h
      cases h'
      rfl
    subst this
    exact absurd hf (List.not_mem_nil f)
  | cons hd tl ih =>
    intro fs h f hf
    unfold buildAll at h
    cases hhd : hd () with
    | notCallable k => rw [hhd] at h; cases h
    | callable f0 =>
      rw [hhd] at h
      rcases hta : buildAll tl with ⟨tr, r⟩
      rw [hta] at h
      cases r with
      | error u => cases h
      | ok gs =>
        simp only at h
        cases h
        rcases List.mem_cons.mp hf with rfl | hmem
        · exact ⟨hd, List.mem_cons_self hd tl, hhd⟩
        · obtain ⟨b, hbtl, hbf⟩ := ih gs (by rw [hta]) f hmem
          exact ⟨b, List.mem_cons_of_mem hd hbtl, hbf⟩

lemma runChain_noraise (errf : ErrorFunc) :
    ∀ (fns : List Transform),
      (∀ f ∈ fns, ∀ x, ∃ v, f x = Except.ok v) →
      ∀ (items : List Value),
        (runChain errf fns items).2
          = (items.flatMap (specApply fns), (none : Option Exn)) := by
  intro fns
  induction fns with
  | nil =>
    intro _ items
    show ((items : List Value), (none : Option Exn)) = (items.flatMap (fun x => [x]), none)
    rw [flatMap_singleton_id]
  | cons f rest ihf =>
    intro h items
    have hrest : ∀ g ∈ rest, ∀ x, ∃ v, g x = Except.ok v :=
      fun g hg => h g (List.mem_cons_of_mem f hg)
    induction items with
    | nil => rfl
    | cons x xs ihx =>
      obtain ⟨v, hv⟩ := h f (List.mem_cons_self f rest) x
      have hstep : runChain errf (f :: rest) (x :: xs)
          = chainStep errf f (runChain errf rest) x (runChain errf (f :: rest) xs) := rfl
      rw [hstep]
      unfold chainStep
      rw [hv]
      have hspec : specApply (f :: rest) x
          = (if v.isNone then []
             else if v.isIterable then v.elements.flatMap (specApply rest)
             else specApply rest v) := by
        show (match f x with
              | Except.error _ => []
              | Except.ok v =>
                if v.isNone then []
                else if v.isIterable then v.elements.flatMap (specApply rest)
                else specApply rest v) = _
        rw [hv]
      cases hn : v.isNone with
      | true =>
        simp only [hn, if_true]
        have hacc := ihx
        rcases ha : runChain errf (f :: rest) xs with ⟨tr2, ys2, ex2⟩
        rw [ha] at hacc
        simp only [Prod.mk.injEq] at hacc
        rw [List.flatMap_cons, hspec]
        simp [hn, hacc.1, hacc.2]
      | false =>
        cases hit : v.isIterable with
        | true =>
          simp only [hn, hit, Bool.false_eq_true, if_false, if_true]
          have hsub := ihf hrest v.elements
          rcases hr : runChain errf rest v.elements with ⟨tr, ys, ex⟩
          rw [hr] at hsub
          simp only [Prod.mk.injEq] at hsub
          have hacc := ihx
          rcases ha : runChain errf (f :: rest) xs with ⟨tr2, ys2, ex2⟩
          rw [ha] at hacc
          simp only [Prod.mk.injEq] at hacc
          rw [hsub.2, hacc.2]
          rw [List.flatMap_cons, hspec]
          simp [hn, hit, hsub.1, hacc.1]
        | false =>
          simp only [hn, hit, Bool.false_eq_true, if_false]
          have hsub := ihf hrest [v]
          rcases hr : runChain errf rest [v] with ⟨tr, ys, ex⟩
          rw [hr] at hsub
          simp only [Prod.mk.injEq] at hsub
          have hacc := ihx
          rcases ha : runChain errf (f :: rest) xs with ⟨tr2, ys2, ex2⟩
          rw [ha] at hacc
          simp only [Prod.mk.injEq] at hacc
          rw [hsub.2, hacc.2]
          rw [List.flatMap_cons, hspec]
          simp [hn, hit, hsub.1, hacc.1]

lemma run_pipeline_trace (errf : ErrorFunc) (pulls : List (Except Exn Value))
    (fns : List Transform) :
    (run_pipeline errf pulls fns).1
      = (runChain errf fns (safeSource errf Value.vnone pulls).1).1 := by
  have h0 : run_pipeline errf pulls fns
      = (match runChain errf fns (safeSource errf Value.vnone pulls).1 with
         | (tr, ys, some e) => (tr, ys, some e)
         | (tr, ys, none) => (tr, ys, (safeSource errf Value.vnone pulls).2)) := rfl
  rw [h0]
  rcases hrc : runChain errf fns (safeSource errf Value.vnone pulls).1
    with ⟨tr, ys, ex⟩
  cases ex <;> rfl

lemma register_many_eq_append :
    ∀ (regs : List (String × String × Builder)) (fl : List Entry),
      register_many fl regs
        = fl ++ regs.map (fun r => (⟨r.1, r.2.1, r.2.2⟩ : Entry)) := by
  intro regs
  induction regs with
  | nil => intro fl; simp [register_many]
  | cons r rest ih =>
    intro fl
    rcases r with ⟨g, n, b⟩
    show register_many (add_func fl n b g) rest = _
    rw [ih (add_func fl n b g)]
    simp [add_func]

/-- C1: when a transform returns a `Many` (element-iterable) result `v` for
the current item, the executor applies the remaining chain independently to
each of `v`'s elements and yields all of their outputs contiguously, in
order, before any output of the next source item; concretely the chain
`[x -> x+1, x -> Many(x, x)]` over source `[0, 1, 3]` yields exactly
`[1, 1, 2, 2, 4, 4]`. -/
theorem many_fanout_contiguous (errf : ErrorFunc) (f : Transform)
    (rest : List Transform) (x v : Value) (xs : List Value)
    (hf : f x = Except.ok v) (hit : v.isIterable = true)
    (hsub : (runChain errf rest v.elements).2.2 = none) :
    ((runChain errf (f :: rest) (x :: xs)).2.1
      = v.elements.flatMap (fun y => (runChain errf rest [y]).2.1)
        ++ (runChain errf (f :: rest) xs).2.1)
    ∧ (run_pipeline default_error_func
        (toPulls [Value.vint 0, Value.vint 1, Value.vint 3]) [incT, dupT]).2.1
      = [Value.vint 1, Value.vint 1, Value.vint 2, Value.vint 2,
         Value.vint 4, Value.vint 4] := by
  constructor
  · have hnN : v.isNone = false := by
      cases v <;> simp_all [Value.isIterable, Value.isNone]
    have hflat0 := runChain_flatMap errf rest v.elements hsub
    have hstep : runChain errf (f :: rest) (x :: xs)
        = chainStep errf f (runChain errf rest) x (runChain errf (f :: rest) xs) := rfl
    rw [hstep]
    unfold chainStep
    rw [hf]
    simp only [hnN, hit, Bool.false_eq_true, if_false, if_true]
    rcases hr : runChain errf rest v.elements with ⟨tr, ys, ex⟩
    rw [hr] at hsub hflat0
    simp only at hsub
    subst hsub
    simp only at hflat0
    simp [hflat0]
  · rfl

/-- C1 witness at a concrete fan-out: `dupT` on item `1` with remaining
chain `[]` and one further source item. -/
theorem many_fanout_contiguous_witness :
    (runChain default_error_func (dupT :: []) (Value.vint 1 :: [Value.vint 2])).2.1
      = (Value.vlist [Value.vint 1, Value.vint 1]).elements.flatMap
          (fun y => (runChain default_error_func [] [y]).2.1)
        ++ (runChain default_error_func (dupT :: []) [Value.vint 2]).2.1 :=
  (many_fanout_contiguous default_error_func dupT [] (Value.vint 1)
    (Value.vlist [Value.vint 1, Value.vint 1]) [Value.vint 2] rfl rfl rfl).1

/-- C2: for a chain whose transforms never raise, the run yields exactly the
chain applied in order to each source element with fan-out flattened
depth-first (the specification-side `specApply`), no exception escapes, and
the error policy is never consulted (the result is the same for every
policy); concretely `[x -> x+1]` over `[0, 1, 3]` yields `[1, 2, 4]`. -/
theorem run_error_free_chain (errf : ErrorFunc) (fns : List Transform)
    (S : List Value)
    (h : ∀ f ∈ fns, ∀ x, ∃ v, f x = Except.ok v) :
    ((run_pipeline errf (toPulls S) fns).2.1 = S.flatMap (specApply fns))
    ∧ (run_pipeline errf (toPulls S) fns).2.2 = none
    ∧ (run_pipeline default_error_func
        (toPulls [Value.vint 0, Value.vint 1, Value.vint 3]) [incT]).2.1
      = [Value.vint 1, Value.vint 2, Value.vint 4] := by
  have hr := runChain_noraise errf fns h S
  rw [run_pipeline_pure]
  have h1 : (runChain errf fns S).2.1 = S.flatMap (specApply fns) := by rw [hr]
  have h2 : (runChain errf fns S).2.2 = none := by rw [hr]
  exact ⟨h1, h2, rfl⟩

/-- C2 witness: the never-raising chain `[incT]` over `[0, 1, 3]`. -/
theorem run_error_free_chain_witness :
    (run_pipeline default_error_func
      (toPulls [Value.vint 0, Value.vint 1, Value.vint 3]) [incT]).2.1
      = [Value.vint 0, Value.vint 1, Value.vint 3].flatMap (specApply [incT]) :=
  (run_error_free_chain default_error_func [incT]
    [Value.vint 0, Value.vint 1, Value.vint 3]
    (by
      intro f hf x
      rw [List.mem_singleton] at hf
      subst hf
      exact ⟨_, rfl⟩)).1

/-- C3: when transform `f` raises on item `x` and the error policy returns a
non-absent substitute `y`, execution resumes with `y` at the next stage (the
failed stage is not retried): the output contributed by `x` is the remaining
chain applied to `y`; concretely `[x -> raise, x -> x+1]` with a policy
returning `99` over `[5]` yields `[100]`. -/
theorem error_policy_resume (errf : ErrorFunc) (f : Transform)
    (rest : List Transform) (x y : Value) (e : Exn)
    (hf : f x = Except.error e) (he : errf x e = Except.ok y)
    (hy : y.isNone = false) :
    ((runChain errf (f :: rest) [x]).2
      = (if y.isIterable then (runChain errf rest y.elements).2
         else (runChain errf rest [y]).2))
    ∧ (run_pipeline errf99 (toPulls [Value.vint 5]) [boomT, incT]).2.1
      = [Value.vint 100] := by
  constructor
  · have hstep : runChain errf (f :: rest) [x]
        = chainStep errf f (runChain errf rest) x ([], [], none) := rfl
    rw [hstep]
    unfold chainStep
    have hm : (match f x with
               | Except.ok v => Except.ok v
               | Except.error e => errf x e) = Except.ok y := by
      rw [hf]
      exact he
    rw [hm]
    cases hit : y.isIterable with
    | true =>
      simp only [hy, hit, Bool.false_eq_true, if_false, if_true]
      rcases hr : runChain errf rest y.elements with ⟨tr, ys, ex⟩
      cases ex <;> simp
    | false =>
      simp only [hy, hit, Bool.false_eq_true, if_false]
      rcases hr : runChain errf rest [y] with ⟨tr, ys, ex⟩
      cases ex <;> simp
  · rfl

/-- C3 witness: `boomT` raises on `5`, the policy substitutes `99`, and the
remaining `[incT]` is applied to `99`. -/
theorem error_policy_resume_witness :
    (runChain errf99 (boomT :: [incT]) [Value.vint 5]).2
      = (if (Value.vint 99).isIterable
         then (runChain errf99 [incT] (Value.vint 99).elements).2
         else (runChain errf99 [incT] [Value.vint 99]).2) :=
  (error_policy_resume errf99 boomT [incT] (Value.vint 5) (Value.vint 99) 7
    rfl rfl rfl).1

/-- C4: when pulling from the source raises after items `vs`, the error
policy is consulted exactly once, with the last successfully produced item
(`None` when no item was produced yet) and the exception, the produced items
are exactly `vs`, and the run then ends whatever the policy returns: the
pulls `qs` after the failure are never consumed and contribute nothing. -/
theorem source_error_ends_run (errf : ErrorFunc) (vs : List Value) (e : Exn)
    (qs : List (Except Exn Value)) (fns : List Transform) :
    (safeSource errf Value.vnone (vs.map Except.ok ++ Except.error e :: qs)
      = (vs, match errf (vs.getLastD Value.vnone) e with
             | Except.ok _ => none
             | Except.error e2 => some e2))
    ∧ run_pipeline errf (vs.map Except.ok ++ Except.error e :: qs) fns
      = run_pipeline errf (vs.map Except.ok ++ [Except.error e]) fns := by
  refine ⟨safeSource_error errf e vs Value.vnone qs, ?_⟩
  unfold run_pipeline
  rw [safeSource_error errf e vs Value.vnone qs,
    safeSource_error errf e vs Value.vnone []]

/-- C7: a transform returning `None` removes exactly that item's
contribution: no output is yielded for it, no later stage of the chain is
applied to it (only `f` appears in the trace for `x`), and the run continues
with the next source items unchanged. -/
theorem drop_removes_item (errf : ErrorFunc) (f : Transform)
    (rest : List Transform) (x : Value) (xs : List Value)
    (hf : f x = Except.ok Value.vnone) :
    ((runChain errf (f :: rest) [x]).2.1 = [])
    ∧ runChain errf (f :: rest) (x :: xs)
      = (f :: (runChain errf (f :: rest) xs).1,
         (runChain errf (f :: rest) xs).2.1,
         (runChain errf (f :: rest) xs).2.2) := by
  constructor
  · have hstep : runChain errf (f :: rest) [x]
        = chainStep errf f (runChain errf rest) x ([], [], none) := rfl
    rw [hstep]
    unfold chainStep
    rw [hf]
    rfl
  · have hstep : runChain errf (f :: rest) (x :: xs)
        = chainStep errf f (runChain errf rest) x (runChain errf (f :: rest) xs) := rfl
    rw [hstep]
    unfold chainStep
    rw [hf]
    rfl

/-- C7 witness: `dropT` drops the item `5`; the remaining `[incT]` is never
applied to it. -/
theorem drop_removes_item_witness :
    (runChain default_error_func (dropT :: [incT]) [Value.vint 5]).2.1 = [] :=
  (drop_removes_item default_error_func dropT [incT] (Value.vint 5)
    [Value.vint 6] rfl).1

/-- C5: resolution with a skip set only ever invokes builders of non-skipped
entries; every transform the run applies was built from a non-skipped entry;
and the non-skipped entries keep their exact registration order (the
filtered registry is an order-preserving sublist of the registry). -/
theorem skip_groups_excluded (registry : List Entry) (skip : List String)
    (errf : ErrorFunc) (pulls : List (Except Exn Value)) :
    (∀ b ∈ (get_functions_to_run registry skip).1,
       ∃ en, en ∈ registry ∧ skip.contains en.group = false ∧ en.builder = b)
    ∧ (∀ fns, (get_functions_to_run registry skip).2 = Except.ok fns →
        ∀ g ∈ (run_pipeline errf pulls fns).1,
          ∃ en, en ∈ registry ∧ skip.contains en.group = false
            ∧ en.builder () = BuildResult.callable g)
    ∧ List.Sublist (registry.filter (fun en => !(skip.contains en.group))) registry := by
  refine ⟨?_, ?_, List.filter_sublist registry⟩
  · intro b hb
    have hmem := buildAll_trace_mem _ b hb
    rw [List.mem_map] at hmem
    obtain ⟨en, henf, hbe⟩ := hmem
    rw [List.mem_filter] at henf
    exact ⟨en, henf.1, by simpa using henf.2, hbe⟩
  · intro fns hok g hg
    rw [run_pipeline_trace] at hg
    have hfns : g ∈ fns := runChain_trace_mem errf fns _ g hg
    obtain ⟨b, hbbs, hbg⟩ := buildAll_ok_mem _ fns hok g hfns
    rw [List.mem_map] at hbbs
    obtain ⟨en, henf, hbe⟩ := hbbs
    rw [List.mem_filter] at henf
    refine ⟨en, henf.1, by simpa using henf.2, ?_⟩
    rw [hbe]
    exact hbg

/-- C5 witness: with `demoRegistry` and the group `"twos"` skipped, the one
transform the run applies comes from a non-skipped entry. -/
theorem skip_groups_excluded_witness :
    ∃ en, en ∈ demoRegistry ∧ (["twos"].contains en.group = false)
      ∧ en.builder () = BuildResult.callable incT :=
  (skip_groups_excluded demoRegistry ["twos"] default_error_func
      (toPulls [Value.vint 0])).2.1 [incT] rfl incT
    (List.mem_singleton.mpr rfl)

/-- C6: resolution iterates the registry in registration order, skipping the
excluded groups; when every remaining builder's result is callable each of
those builders is invoked exactly once (the invocation list is exactly the
filtered builder list, in order) and resolution returns their results; a
non-callable result from any non-skipped builder makes resolution fail with
the configuration error; and that failure happens at resolve time, before
any item is pulled: the registry-driven run then returns the error whatever
the source holds. -/
theorem resolve_builders_validated (registry : List Entry) (skip : List String) :
    ((∀ en ∈ registry.filter (fun en => !(skip.contains en.group)),
        ∃ f, en.builder () = BuildResult.callable f) →
      (get_functions_to_run registry skip).1
        = (registry.filter (fun en => !(skip.contains en.group))).map Entry.builder
      ∧ ∃ fs, (get_functions_to_run registry skip).2 = Except.ok fs
          ∧ List.Forall₂ (fun b f => b () = BuildResult.callable f)
              ((registry.filter (fun en => !(skip.contains en.group))).map Entry.builder) fs)
    ∧ (∀ en k, en ∈ registry → skip.contains en.group = false →
        en.builder () = BuildResult.notCallable k →
        (get_functions_to_run registry skip).2 = Except.error ())
    ∧ ((get_functions_to_run registry skip).2 = Except.error () →
        ∀ errf pulls, run_with_registry errf registry skip pulls = Except.error ()) := by
  refine ⟨?_, ?_, ?_⟩
  · intro hc
    have h : ∀ b ∈ (registry.filter (fun en => !(skip.contains en.group))).map Entry.builder,
        ∃ f, b () = BuildResult.callable f := by
      intro b hb
      rw [List.mem_map] at hb
      obtain ⟨en, hen, rfl⟩ := hb
      exact hc en hen
    exact buildAll_ok _ h
  · intro en k hen hns hk
    exact buildAll_error _ en.builder k
      (List.mem_map_of_mem Entry.builder
        (List.mem_filter.mpr ⟨hen, by simpa using hns⟩)) hk
  · intro herr errf pulls
    unfold run_with_registry
    rw [herr]

/-- C6 witness: on `demoRegistry` (all builders callable) the invocation
trace is exactly the registered builders in order; on `demoRegistryBad` the
broken builder makes resolution, and the registry-driven run on any source,
fail with the configuration error. -/
theorem resolve_builders_validated_witness :
    (get_functions_to_run demoRegistry []).1 = [bUp, bDup]
    ∧ (get_functions_to_run demoRegistryBad []).2 = Except.error ()
    ∧ run_with_registry default_error_func demoRegistryBad []
        (toPulls [Value.vint 0]) = Except.error () := by
  refine ⟨?_, ?_, ?_⟩
  · have h := (resolve_builders_validated demoRegistry []).1 (by
      intro en hen
      have hen2 : en ∈ [(⟨"", "up_one", bUp⟩ : Entry), ⟨"twos", "twofer", bDup⟩] := hen
      rcases List.mem_cons.mp hen2 with rfl | hen3
      · exact ⟨incT, rfl⟩
      · rcases List.mem_cons.mp hen3 with rfl | hen4
        · exact ⟨dupT, rfl⟩
        · exact absurd hen4 (List.not_mem_nil en))
    exact h.1.trans rfl
  · exact (resolve_builders_validated demoRegistryBad []).2.1
      ⟨"g", "bad", bBad⟩ 0
      (List.mem_cons_of_mem _ (List.mem_cons_self _ _)) rfl rfl
  · exact (resolve_builders_validated demoRegistryBad []).2.2 rfl
      default_error_func (toPulls [Value.vint 0])

/-- C8: registration appends one record per call, preserving exact insertion
order whatever the interleaving of groups; the bare annotator registers
under the default empty group; earlier entries are never mutated or removed
(the old list is a prefix of the new one); and the group tag acts only as a
filter: the non-skipped entries of any registration sequence keep their
registration order. -/
theorem register_preserves_order (fl : List Entry)
    (regs : List (String × String × Builder)) (n g : String) (b : Builder)
    (skip : List String) :
    (register_many fl regs
      = fl ++ regs.map (fun r => (⟨r.1, r.2.1, r.2.2⟩ : Entry)))
    ∧ annotate_bare fl n b = fl ++ [⟨"", n, b⟩]
    ∧ annotate_group fl g n b = fl ++ [⟨g, n, b⟩]
    ∧ (register_many fl regs).take fl.length = fl
    ∧ List.Sublist
        ((register_many fl regs).filter (fun en => !(skip.contains en.group)))
        (register_many fl regs) := by
  refine ⟨register_many_eq_append regs fl, rfl, rfl, ?_, List.filter_sublist _⟩
  rw [register_many_eq_append regs fl]
  exact List.take_left fl _

/-- C9 counterexample: the executor dispatches by value inspection, not by a
tagged result type; a transform returning the text `"ab"` is fanned out over
its one-character substrings instead of passing through as a single item. -/
theorem textual_result_not_single :
    ((run_pipeline default_error_func (toPulls [Value.vint 0]) [toStrAB]).2.1
      = [Value.vstr ['a'], Value.vstr ['b']])
    ∧ (run_pipeline default_error_func (toPulls [Value.vint 0]) [toStrAB]).2.1
      ≠ [Value.vstr ['a', 'b']] := by
  constructor
  · rfl
  · intro hcontra
    have h2 : ([Value.vstr ['a'], Value.vstr ['b']] : List Value)
        = [Value.vstr ['a', 'b']] := hcontra
    simp at h2

/-- C9 amended: a transform result that is element-iterable — including a
textual value — is treated as a `Many`: a string result fans out over its
one-character substrings, each continuing through the remaining chain. -/
theorem textual_result_fans_out (errf : ErrorFunc) (f : Transform)
    (rest : List Transform) (x : Value) (xs : List Value) (s : List Char)
    (hf : f x = Except.ok (Value.vstr s))
    (hsub : (runChain errf rest ((Value.vstr s).elements)).2.2 = none) :
    (runChain errf (f :: rest) (x :: xs)).2.1
      = (runChain errf rest (s.map (fun c => Value.vstr [c]))).2.1
        ++ (runChain errf (f :: rest) xs).2.1 := by
  have hstep : runChain errf (f :: rest) (x :: xs)
      = chainStep errf f (runChain errf rest) x (runChain errf (f :: rest) xs) := rfl
  rw [hstep]
  unfold chainStep
  rw [hf]
  simp only [Value.isNone, Value.isIterable, Bool.false_eq_true, if_false, if_true]
  rcases hr : runChain errf rest ((Value.vstr s).elements) with ⟨tr, ys, ex⟩
  rw [hr] at hsub
  simp only at hsub
  subst hsub
  have helem : (Value.vstr s).elements = s.map (fun c => Value.vstr [c]) := rfl
  rw [helem] at hr
  rw [hr]

/-- C9 amended witness: `toStrAB` on item `0` with empty remaining chain. -/
theorem textual_result_fans_out_witness :
    (runChain default_error_func (toStrAB :: []) (Value.vint 0 :: [])).2.1
      = (runChain default_error_func [] (['a', 'b'].map (fun c => Value.vstr [c]))).2.1
        ++ (runChain default_error_func (toStrAB :: []) []).2.1 :=
  textual_result_fans_out default_error_func toStrAB [] (Value.vint 0) []
    ['a', 'b'] rfl rfl

/-- C10: when a transform raises and the error policy returns `None`, the
item is silently dropped: nothing is yielded for it, no remaining stage is
applied to it (only the failing transform appears in its trace), the run
continues with the next source items, and the outcome for that item is
identical to a transform returning `None` (Drop). -/
theorem policy_none_drops_item (errf : ErrorFunc) (f : Transform)
    (rest : List Transform) (x : Value) (xs : List Value) (e : Exn)
    (hf : f x = Except.error e) (he : errf x e = Except.ok Value.vnone) :
    ((runChain errf (f :: rest) [x]).2.1 = [])
    ∧ runChain errf (f :: rest) (x :: xs)
      = (f :: (runChain errf (f :: rest) xs).1,
         (runChain errf (f :: rest) xs).2.1,
         (runChain errf (f :: rest) xs).2.2)
    ∧ (∀ g : Transform, g x = Except.ok Value.vnone →
        (runChain errf (f :: rest) [x]).2 = (runChain errf (g :: rest) [x]).2) := by
  have hm : (match f x with
             | Except.ok v => Except.ok v
             | Except.error e => errf x e) = Except.ok Value.vnone := by
    rw [hf]
    exact he
  refine ⟨?_, ?_, ?_⟩
  · have hstep : runChain errf (f :: rest) [x]
        = chainStep errf f (runChain errf rest) x ([], [], none) := rfl
    rw [hstep]
    unfold chainStep
    rw [hm]
    rfl
  · have hstep : runChain errf (f :: rest) (x :: xs)
        = chainStep errf f (runChain errf rest) x (runChain errf (f :: rest) xs) := rfl
    rw [hstep]
    unfold chainStep
    rw [hm]
    rfl
  · intro g hg
    have hmg : (match g x with
                | Except.ok v => Except.ok v
                | Except.error e => errf x e) = Except.ok Value.vnone := by
      rw [hg]
    have hstepf : runChain errf (f :: rest) [x]
        = chainStep errf f (runChain errf rest) x ([], [], none) := rfl
    have hstepg : runChain errf (g :: rest) [x]
        = chainStep errf g (runChain errf rest) x ([], [], none) := rfl
    rw [hstepf, hstepg]
    unfold chainStep
    rw [hm, hmg]
    rfl

/-- C10 witness: `boomT` raises on `5` and the policy returns `None`; the
item is dropped with no output. -/
theorem policy_none_drops_item_witness :
    (runChain errfNone (boomT :: [incT]) [Value.vint 5]).2.1 = [] :=
  (policy_none_drops_item errfNone boomT [incT] (Value.vint 5) [Value.vint 6]
    7 rfl rfl).1

end Pipeless
